import Mathlib

/-!
Verification of the elizaOS documentation link-validation script
(`link_validation_script.py`) via a shallow embedding.

The script scans a documentation tree for `.md`/`.mdx` files, builds a set
of path variants (the FileIndex), extracts markdown/`href=`/`src=` links,
classifies each as internal or external, validates internal links against
the FileIndex, and for broken links searches for a fuzzy suggestion using
`difflib.get_close_matches` with cutoff 0.6.

Modelling conventions:
* strings are Lean `String`s, manipulated through their `List Char` data;
* the filesystem snapshot is a list of `SrcFile` records (relative path,
  plus `Option String` content where `none` models a read/decode failure);
* the directory glob is modelled as a filter on the snapshot's paths,
  keeping the snapshot order;
* Python `set` objects are modelled as duplicate-free lists in insertion
  order (iteration order of a CPython set is abstracted; no claim below
  depends on it);
* `difflib`'s float ratio 2*M/T is modelled as an exact rational comparison
  (cross-multiplication); the 0.6 cutoff is the rational 3/5.
-/

namespace LinkVal

/-! ### String helpers (ASCII, mirroring the Python `str` operations used) -/

/-- ASCII lower-casing of one character, as in Python `str.lower` on ASCII. -/
def lowerChar (c : Char) : Char :=
  if 'A' ≤ c ∧ c ≤ 'Z' then Char.ofNat (c.toNat + 32) else c

/-- Python `s.lower()` restricted to ASCII data. -/
def strLower (s : String) : String :=
  ⟨s.data.map lowerChar⟩

/-- Python `s.startswith(p)`. -/
def strStartsWith (s p : String) : Bool :=
  decide (s.data.take p.data.length = p.data)

/-- Python `s.endswith(p)`. -/
def strEndsWith (s p : String) : Bool :=
  decide (s.data.drop (s.data.length - p.data.length) = p.data) &&
    decide (p.data.length ≤ s.data.length)

/-- Python `s.split(c)[0]`: the characters before the first occurrence of `c`. -/
def beforeChar (s : String) (c : Char) : String :=
  ⟨s.data.takeWhile (fun d => d ≠ c)⟩

/-- Python `s.lstrip('/')`: remove all leading `/` characters. -/
def lstripSlash (s : String) : String :=
  ⟨s.data.dropWhile (fun d => d = '/')⟩

/-- Index of the last occurrence of `c` in `l`, if any. -/
def lastIdxOf (c : Char) (l : List Char) : Option Nat :=
  (List.range l.length).reverse.find? (fun i => l.get? i = some c)

/-- Offset where the final path component (`Path.name`) starts. -/
def nameStartOf (l : List Char) : Nat :=
  match lastIdxOf '/' l with
  | some i => i + 1
  | none => 0

/-- `pathlib.Path(s).with_suffix('')` rendered back to a string: strip the
final extension of the last path component.  Python treats the name as having
a suffix only when the last dot is neither the first nor the last character
of the name. -/
def withSuffixEmpty (s : String) : String :=
  match lastIdxOf '.' (s.data.drop (nameStartOf s.data)) with
  | some i =>
    if 0 < i ∧ i < (s.data.drop (nameStartOf s.data)).length - 1 then
      ⟨s.data.take (nameStartOf s.data + i)⟩
    else s
  | none => s

/-! ### Data model -/

/-- One file of the documentation tree: its path relative to the docs root
and its text content; `none` models a file whose `read_text` raises. -/
structure SrcFile where
  path : String
  content : Option String
deriving DecidableEq, Repr

/-- A link record as built by `extract_links_from_file`. -/
structure Link where
  file : String
  line : Nat
  type : String
  text : String
  url : String
  raw_match : String
deriving DecidableEq, Repr

/-- Result of `validate_internal_link`. -/
structure ValidationResult where
  valid : Bool
  target : String
  suggestion : Option String
deriving DecidableEq, Repr

/-- A broken-link record: the link, its validation, and the confidence tag. -/
structure BrokenLink where
  link : Link
  validation : ValidationResult
  confidence : String
deriving DecidableEq, Repr

/-- The mutable state of the `LinkValidator` object. -/
structure LinkValidator where
  all_files : List String
  links_found : List Link
  broken_links : List BrokenLink
  fixes_applied : List Link
  external_links : List Link
deriving DecidableEq, Repr

/-- The `summary` block of the report. -/
structure Summary where
  total_files_scanned : Nat
  total_links_found : Nat
  internal_links : Nat
  external_links : Nat
  broken_internal_links : Nat
  fixes_applied : Nat
deriving DecidableEq, Repr

/-- The report returned by `generate_report`. -/
structure Report where
  summary : Summary
  broken_links : List BrokenLink
  external_links : List Link
  fixes_applied : List Link
  all_links : List Link
deriving DecidableEq, Repr

/-! ### File indexing (`_build_file_index`) -/

/-- The files produced by the two glob passes `**/*.mdx` then `**/*.md`,
in snapshot order within each pass. -/
def globFiles (tree : List SrcFile) : List SrcFile :=
  tree.filter (fun f => strEndsWith f.path ".mdx") ++
    tree.filter (fun f => strEndsWith f.path ".md")

/-- Insertion into a Python `set`, modelled on duplicate-free lists. -/
def insertSet (l : List String) (s : String) : List String :=
  if s ∈ l then l else l ++ [s]

/-- The four variants `_build_file_index` adds for one relative path. -/
def fourVariants (p : String) : List String :=
  [p, withSuffixEmpty p, "/" ++ p, "/" ++ withSuffixEmpty p]

/-- `_build_file_index`: all four variants of every globbed file. -/
def buildFileIndex (tree : List SrcFile) : List String :=
  (globFiles tree).foldl (fun acc f => (fourVariants f.path).foldl insertSet acc) []

/-! ### Link classification (`is_internal_link`) -/

/-- `is_internal_link`: `False` exactly when the URL starts with one of the
five scheme prefixes, checked case-sensitively by `str.startswith`. -/
def is_internal_link (url : String) : Bool :=
  if strStartsWith url "http://" || strStartsWith url "https://" then false
  else if strStartsWith url "mailto:" || strStartsWith url "tel:" || strStartsWith url "ftp:" then false
  else true

/-! ### Path normalization (`normalize_internal_path`) -/

/-- The recognized-extension check of `normalize_internal_path` line 110. -/
def hasKnownExt (u : String) : Bool :=
  strEndsWith u ".mdx" || strEndsWith u ".md" || strEndsWith u ".json" ||
    strEndsWith u ".png" || strEndsWith u ".jpg" || strEndsWith u ".gif" ||
    strEndsWith u ".svg"

/-- `normalize_internal_path`. -/
def normalize_internal_path (url : String) : String :=
  let u := beforeChar (beforeChar url '#') '?'
  if strStartsWith u "./" then
    let u := ⟨u.data.drop 2⟩
    if hasKnownExt u then u else u ++ ".mdx"
  else if strStartsWith u "../" then u
  else if hasKnownExt u then u else u ++ ".mdx"

/-! ### Link extraction (`extract_links_from_file`)

The three regular expressions of the script are simple enough to be
deterministic: the character classes `[^\]]*`, `[^)]+`, `[^"\']+` leave the
backtracking engine no choice, so each pattern is implemented as a direct
scanner.  `re.finditer` semantics: try a match at every position from left
to right, and resume after the end of each match. -/

def quoteD : Char := '"'

def quoteS : Char := '\''

def isQuote (c : Char) : Bool := c = quoteD || c = quoteS

/-- Match of `\[([^\]]*)\]\(([^)]+)\)` anchored at the head of `s`:
returns `((text, url), length)` on success. -/
def matchMd (s : List Char) : Option ((String × String) × Nat) :=
  match s with
  | '[' :: rest =>
    let t := rest.takeWhile (fun c => c ≠ ']')
    match rest.drop t.length with
    | ']' :: '(' :: r2 =>
      let u := r2.takeWhile (fun c => c ≠ ')')
      match r2.drop u.length with
      | ')' :: _ => if u = [] then none else some ((⟨t⟩, ⟨u⟩), t.length + u.length + 4)
      | _ => none
    | _ => none
  | _ => none

/-- Case-insensitive literal match of `key` at the head of `s`
(the scans use `re.IGNORECASE`). -/
def matchKeyCI : List Char → List Char → Bool
  | [], _ => true
  | _ :: _, [] => false
  | k :: ks, c :: cs => lowerChar k = lowerChar c && matchKeyCI ks cs

/-- Match of `key=["\']([^"\']+)["\']` (with `key=` compared
case-insensitively) anchored at the head of `s`: returns `(url, length)`. -/
def matchAttr (key : List Char) (s : List Char) : Option (String × Nat) :=
  if matchKeyCI key s then
    match s.drop key.length with
    | q :: r2 =>
      if isQuote q then
        let u := r2.takeWhile (fun c => !(isQuote c))
        match r2.drop u.length with
        | q2 :: _ => if u = [] then none
                     else if isQuote q2 then some (⟨u⟩, key.length + u.length + 2) else none
        | [] => none
      else none
    | [] => none
  else none

/-- `re.finditer`: scan positions left to right, emitting
`(absolute position, captures, match length)` and resuming after each
match.  `fuel` is instantiated with the content length. -/
def scanFuel (f : List Char → Option (α × Nat)) : Nat → List Char → Nat → List (Nat × α × Nat)
  | 0, _, _ => []
  | _ + 1, [], _ => []
  | fuel + 1, c :: cs, p =>
    match f (c :: cs) with
    | some (a, len) => (p, a, len) :: scanFuel f fuel ((c :: cs).drop (max len 1)) (p + max len 1)
    | none => scanFuel f fuel cs (p + 1)

/-- 1-based line number of offset `p`: newlines before `p`, plus one. -/
def lineOf (cs : List Char) (p : Nat) : Nat :=
  ((cs.take p).filter (fun c => c = '\n')).length + 1

/-- `extract_links_from_file`: a file whose content cannot be read
contributes zero links; otherwise the three pattern scans run in order
(markdown, `href`, `src`) over the full content. -/
def extract_links_from_file (f : SrcFile) : List Link :=
  match f.content with
  | none => []
  | some content =>
    let cs := content.data
    let md : List Link := (scanFuel matchMd cs.length cs 0).map (fun m =>
      { file := f.path, line := lineOf cs m.1, type := "markdown",
        text := m.2.1.1, url := m.2.1.2, raw_match := ⟨(cs.drop m.1).take m.2.2⟩ })
    let hrefs : List Link := (scanFuel (matchAttr ("href=".data)) cs.length cs 0).map (fun m =>
      { file := f.path, line := lineOf cs m.1, type := "href",
        text := "", url := m.2.1, raw_match := ⟨(cs.drop m.1).take m.2.2⟩ })
    let srcs : List Link := (scanFuel (matchAttr ("src=".data)) cs.length cs 0).map (fun m =>
      { file := f.path, line := lineOf cs m.1, type := "src",
        text := "", url := m.2.1, raw_match := ⟨(cs.drop m.1).take m.2.2⟩ })
    md ++ hrefs ++ srcs

/-! ### Fuzzy matching (`difflib` as used by `find_closest_match`)

`difflib.SequenceMatcher` with `isjunk=None` on short strings (autojunk
only fires for sequences of length ≥ 200, never reached here) computes the
total size `M` of the matching blocks by repeatedly taking the longest
matching block — ties resolved to the earliest start in `a`, then in `b` —
and recursing on both sides.  `ratio() = 2*M/(len(a)+len(b))`, modelled
exactly as a rational. -/

/-- One row of the longest-common-substring dynamic program:
`cur[j] = prev[j-1] + 1` when `b[j] = ai`, else `0`. -/
def nextRow (ai : Char) (b : List Char) (prev : List Nat) : List Nat :=
  (b.zip (0 :: prev)).map (fun pr => if pr.1 = ai then pr.2 + 1 else 0)

/-- Fold one row into the current best `(i, j, size)` triple, scanning `j`
ascending and replacing only on strictly larger size — exactly the update
order of `difflib.SequenceMatcher.find_longest_match`. -/
def rowBest (i : Nat) (cur : List Nat) (best : Nat × Nat × Nat) : Nat × Nat × Nat :=
  (cur.foldl (fun st k =>
      if k > st.2.2.2 then (st.1 + 1, (i + 1 - k, st.1 + 1 - k, k)) else (st.1 + 1, st.2))
    (0, best)).2

/-- `find_longest_match` over whole sequences (no junk): rows `i` ascending. -/
def findLongestMatch (a b : List Char) : Nat × Nat × Nat :=
  (a.foldl (fun st ai =>
      let cur := nextRow ai b st.2.1
      (st.1 + 1, cur, rowBest st.1 cur st.2.2))
    (0, List.replicate b.length 0, (0, 0, 0))).2.2

/-- Total size of the matching blocks (`get_matching_blocks` recursion). -/
def matchTotal : Nat → List Char → List Char → Nat
  | 0, _, _ => 0
  | fuel + 1, a, b =>
    let m := findLongestMatch a b
    if m.2.2 = 0 then 0
    else matchTotal fuel (a.take m.1) (b.take m.2.1) + m.2.2 +
      matchTotal fuel (a.drop (m.1 + m.2.2)) (b.drop (m.2.1 + m.2.2))

/-- `M` for `SequenceMatcher(None, x, w)` (enough fuel for the recursion). -/
def simScore (x w : String) : Nat :=
  matchTotal (x.data.length + w.data.length + 1) x.data w.data

/-- `ratio() >= 0.6`, i.e. `2*M/(|x|+|w|) ≥ 3/5` (`1.0` for two empty
strings, as in `_calculate_ratio`, which this inequality also captures). -/
def passesCutoff (x w : String) : Bool :=
  10 * simScore x w ≥ 3 * (x.data.length + w.data.length)

/-- Python string `<` (lexicographic on code points). -/
def listLt : List Char → List Char → Bool
  | [], [] => false
  | [], _ :: _ => true
  | _ :: _, [] => false
  | a :: as, b :: bs =>
    if a.toNat < b.toNat then true
    else if b.toNat < a.toNat then false
    else listLt as bs

def strPyLt (x y : String) : Bool := listLt x.data y.data

/-- Is the candidate pair `(ratio, string)` strictly greater than the best so
far, as `heapq.nlargest` compares the `(s.ratio(), x)` tuples?  Ratios are
compared by cross-multiplication (the factor 2 cancels); among passing
candidates the denominators are positive whenever the comparison matters. -/
def betterCand (w : String) (cand best : Nat × String) : Bool :=
  let lc := cand.2.data.length + w.data.length
  let lb := best.2.data.length + w.data.length
  if cand.1 * lb > best.1 * lc then true
  else if cand.1 * lb < best.1 * lc then false
  else strPyLt best.2 cand.2

/-- One step of the `get_close_matches` candidate scan: keep the maximal
`(ratio, x)` pair among candidates clearing the cutoff. -/
def closeStep (w : String) (best : Option (Nat × String)) (x : String) : Option (Nat × String) :=
  if passesCutoff x w then
    match best with
    | none => some (simScore x w, x)
    | some b => if betterCand w (simScore x w, x) b then some (simScore x w, x) else some b
  else best

/-- Head of `difflib.get_close_matches(w, poss, n=3, cutoff=0.6)`: the
maximal `(ratio, x)` tuple among candidates clearing the cutoff (the two
`quick_ratio` pre-filters are upper bounds of `ratio` and so change
nothing). -/
def bestCloseMatch (w : String) (poss : List String) : Option String :=
  (poss.foldl (closeStep w) none).map (fun b => b.2)

/-- `find_closest_match`: fuzzy-match the lower-cased target against the
lower-cased index, then restore the original casing by lookup. -/
def find_closest_match (allFiles : List String) (target : String) : Option String :=
  match bestCloseMatch (strLower target) (allFiles.map strLower) with
  | none => none
  | some best => allFiles.find? (fun f => strLower f = best)

/-! ### Internal-link validation and the pipeline -/

/-- The five candidate strings of `validate_internal_link`. -/
def possible_paths (normalized : String) : List String :=
  [normalized, lstripSlash normalized, "/" ++ lstripSlash normalized,
    normalized ++ ".mdx", normalized ++ ".md"]

/-- `validate_internal_link`. -/
def validate_internal_link (allFiles : List String) (link : Link) : ValidationResult :=
  let normalized := normalize_internal_path link.url
  match (possible_paths normalized).find? (fun p => decide (p ∈ allFiles)) with
  | some p => { valid := true, target := p, suggestion := none }
  | none => { valid := false, target := normalized,
              suggestion := find_closest_match allFiles normalized }

/-- Python truthiness of the `suggestion` field (`None` and `''` are falsy). -/
def pyTruthy : Option String → Bool
  | none => false
  | some s => s ≠ ""

/-- The per-link body of the `process_all_files` loop. -/
def processLink (v : LinkValidator) (link : Link) : LinkValidator :=
  let v1 := { v with links_found := v.links_found ++ [link] }
  if is_internal_link link.url then
    let validation := validate_internal_link v1.all_files link
    if validation.valid then v1
    else { v1 with broken_links := v1.broken_links ++
            [{ link := link, validation := validation,
               confidence := if pyTruthy validation.suggestion then "high" else "low" }] }
  else { v1 with external_links := v1.external_links ++ [link] }

/-- The per-file body of the `process_all_files` loop. -/
def processFile (v : LinkValidator) (f : SrcFile) : LinkValidator :=
  (extract_links_from_file f).foldl processLink v

/-- `LinkValidator.__init__`: empty accumulators, index built once. -/
def initValidator (tree : List SrcFile) : LinkValidator :=
  { all_files := buildFileIndex tree, links_found := [], broken_links := [],
    fixes_applied := [], external_links := [] }

/-- `process_all_files`. -/
def process_all_files (v : LinkValidator) (tree : List SrcFile) : LinkValidator :=
  (globFiles tree).foldl processFile v

/-- The validator state after `__init__` plus `process_all_files`. -/
def runValidatorState (tree : List SrcFile) : LinkValidator :=
  process_all_files (initValidator tree) tree

/-- `generate_report` (the file count redoes the two globs). -/
def generate_report (tree : List SrcFile) (v : LinkValidator) : Report :=
  { summary := {
      total_files_scanned :=
        (tree.filter (fun f => strEndsWith f.path ".mdx")).length +
          (tree.filter (fun f => strEndsWith f.path ".md")).length,
      total_links_found := v.links_found.length,
      internal_links := (v.links_found.filter (fun l => is_internal_link l.url)).length,
      external_links := v.external_links.length,
      broken_internal_links := v.broken_links.length,
      fixes_applied := v.fixes_applied.length },
    broken_links := v.broken_links, external_links := v.external_links,
    fixes_applied := v.fixes_applied, all_links := v.links_found }

/-- The whole `__main__` run (modulo serialisation): build, process, report. -/
def runPipeline (tree : List SrcFile) : Report :=
  generate_report tree (runValidatorState tree)

/-! ### Pure characterization of the processing loop -/

/-- All links extracted over the glob, in file order then pattern order. -/
def extractedOf (tree : List SrcFile) : List Link :=
  ((globFiles tree).map extract_links_from_file).flatten

/-- The broken-link record one link contributes, if any. -/
def mkBrokenRecord (idx : List String) (l : Link) : Option BrokenLink :=
  if is_internal_link l.url then
    let validation := validate_internal_link idx l
    if validation.valid then none
    else some { link := l, validation := validation,
                confidence := if pyTruthy validation.suggestion then "high" else "low" }
  else none

/-- Broken-link records of a link list against an index, in order. -/
def brokenOf (idx : List String) (links : List Link) : List BrokenLink :=
  links.filterMap (mkBrokenRecord idx)

/-- External links of a link list, in order. -/
def externalOf (links : List Link) : List Link :=
  links.filter (fun l => !is_internal_link l.url)

/-! ### Specification-side definition for the normalization claim -/

/-- The normalization algorithm as the specification words it: strip the
fragment and the query; a path starting with `../` is returned unchanged
with no extension appended; otherwise a leading `./` is dropped and `.mdx`
is appended unless a recognized extension is already present.  To be
compared with `normalize_internal_path`, which is transcribed from the
code. -/
def normalizeSpec (url : String) : String :=
  let u := beforeChar (beforeChar url '#') '?'
  if strStartsWith u "../" then u
  else
    let u2 : String := if strStartsWith u "./" then ⟨u.data.drop 2⟩ else u
    if hasKnownExt u2 then u2 else u2 ++ ".mdx"

/-! ### Concrete scenarios -/

/-- Scenario of the typo claim: the index root holds `guide/intro.mdx`, a
scanned file links to `/guide/intor`. -/
def tree4 : List SrcFile :=
  [⟨"guide/intro.mdx", some "x"⟩, ⟨"other.mdx", some "[bad](/guide/intor)"⟩]

/-- The suggestions of all broken-link records of the typo scenario. -/
def c4Suggestions : List (Option String) :=
  (runValidatorState tree4).broken_links.map (fun b => b.validation.suggestion)

/-- Scenario with a link target far from every indexed path. -/
def tree5 : List SrcFile := [⟨"a.mdx", some "[x](zzzzzz)"⟩]

/-- Scenario with an upper-case scheme inside an upper-case `HREF`. -/
def tree9 : List SrcFile := [⟨"a.mdx", some "<a HREF='HTTP://example.com'>"⟩]

/-- Scenario with two files whose paths differ only by case, so every
FileIndex variant has a lowercase-colliding twin, plus one broken link
(`b` normalizes to `b.mdx`) whose fuzzy best match `a.md` clears the
cutoff. -/
def treeC8 : List SrcFile := [⟨"A.md", some ""⟩, ⟨"a.md", some "[x](b)"⟩]

/-- The pipeline with the `all_files` set enumerated in a given order:
`process_all_files` and `generate_report` exactly as before, but the
iteration order of the CPython set — which hash randomization varies
between processes — is supplied explicitly instead of frozen to insertion
order. -/
def runWithIndex (idx : List String) (tree : List SrcFile) : Report :=
  generate_report tree (process_all_files ⟨idx, [], [], [], []⟩ tree)

/-- The insertion-order enumeration of `treeC8`'s FileIndex. -/
def c8Order1 : List String := ["A.md", "A", "/A.md", "/A", "a.md", "a", "/a.md", "/a"]

/-- Another enumeration of the same FileIndex set, as a different hash
seed can produce. -/
def c8Order2 : List String := ["a.md", "a", "/a.md", "/a", "A.md", "A", "/A.md", "/A"]

theorem processLink_eq (v : LinkValidator) (l : Link) :
    processLink v l =
      { v with links_found := v.links_found ++ [l],
               broken_links := v.broken_links ++ (mkBrokenRecord v.all_files l).toList,
               external_links := v.external_links ++
                 if is_internal_link l.url then [] else [l] } := by
  unfold processLink mkBrokenRecord
  by_cases h : is_internal_link l.url
  · simp only [h, if_true]
    by_cases hv : (validate_internal_link v.all_files l).valid
    · simp [hv]
    · simp [hv]
  · simp [h]

theorem foldl_processLink (L : List Link) (v : LinkValidator) :
    L.foldl processLink v =
      { v with links_found := v.links_found ++ L,
               broken_links := v.broken_links ++ brokenOf v.all_files L,
               external_links := v.external_links ++ externalOf L } := by
  induction L generalizing v with
  | nil => simp [brokenOf, externalOf]
  | cons l L ih =>
    rw [List.foldl_cons, processLink_eq, ih]
    simp only [brokenOf, externalOf, List.filterMap_cons, List.filter_cons]
    cases hm : mkBrokenRecord v.all_files l with
    | none =>
      by_cases h : is_internal_link l.url <;>
        simp [h, hm, List.append_assoc]
    | some b =>
      by_cases h : is_internal_link l.url <;>
        simp [h, hm, List.append_assoc]

theorem foldl_processFile (gs : List SrcFile) (v : LinkValidator) :
    gs.foldl processFile v = ((gs.map extract_links_from_file).flatten).foldl processLink v := by
  induction gs generalizing v with
  | nil => rfl
  | cons g gs ih =>
    rw [List.foldl_cons, List.map_cons, List.flatten_cons, List.foldl_append]
    exact ih (processFile v g)

/-- The validator state after the scan, as a pure function of the snapshot. -/
theorem runValidatorState_eq (tree : List SrcFile) :
    runValidatorState tree =
      { all_files := buildFileIndex tree,
        links_found := extractedOf tree,
        broken_links := brokenOf (buildFileIndex tree) (extractedOf tree),
        fixes_applied := [],
        external_links := externalOf (extractedOf tree) } := by
  unfold runValidatorState process_all_files initValidator
  rw [foldl_processFile, foldl_processLink]
  simp [extractedOf]

/-! ### Membership and well-formedness of the FileIndex -/

theorem mem_insertSet (l : List String) (s x : String) :
    x ∈ insertSet l s ↔ x ∈ l ∨ x = s := by
  unfold insertSet
  by_cases h : s ∈ l
  · simp only [h, if_true]
    constructor
    · exact Or.inl
    · rintro (hx | rfl)
      · exact hx
      · exact h
  · simp [h]

theorem mem_foldl_insertSet (ps acc : List String) (x : String) :
    x ∈ ps.foldl insertSet acc ↔ x ∈ acc ∨ x ∈ ps := by
  induction ps generalizing acc with
  | nil => simp
  | cons p ps ih =>
    rw [List.foldl_cons, ih, mem_insertSet]
    simp [or_assoc]

theorem mem_foldl_variants (gs : List SrcFile) (acc : List String) (x : String) :
    x ∈ gs.foldl (fun a f => (fourVariants f.path).foldl insertSet a) acc ↔
      x ∈ acc ∨ ∃ f ∈ gs, x ∈ fourVariants f.path := by
  induction gs generalizing acc with
  | nil => simp
  | cons g gs ih =>
    rw [List.foldl_cons, ih, mem_foldl_insertSet]
    simp [or_assoc]

theorem mem_buildFileIndex (tree : List SrcFile) (x : String) :
    x ∈ buildFileIndex tree ↔ ∃ f ∈ globFiles tree, x ∈ fourVariants f.path := by
  unfold buildFileIndex
  rw [mem_foldl_variants]
  simp

theorem withSuffixEmpty_ne_empty (p : String) (hp : p ≠ "") : withSuffixEmpty p ≠ "" := by
  unfold withSuffixEmpty
  split
  · next i _ =>
    split
    · next hcond =>
      intro h
      have hdata : p.data.take (nameStartOf p.data + i) = [] := congrArg String.data h
      rcases List.take_eq_nil_iff.mp hdata with h0 | hnil
      · omega
      · exact hp (String.ext hnil)
    · exact hp
  · exact hp

theorem strEndsWith_ne_empty (p q : String) (hq : q ≠ "")
    (h : strEndsWith p q = true) : p ≠ "" := by
  rintro rfl
  unfold strEndsWith at h
  rw [Bool.and_eq_true, decide_eq_true_iff, decide_eq_true_iff] at h
  apply hq
  apply String.ext
  exact List.length_eq_zero.mp (Nat.le_zero.mp h.2)

theorem slash_append_ne_empty (p : String) : ("/" ++ p) ≠ "" := by
  intro h
  have := congrArg String.data h
  simp [String.data_append] at this

theorem globFiles_path_ne_empty (tree : List SrcFile) (f : SrcFile)
    (hf : f ∈ globFiles tree) : f.path ≠ "" := by
  unfold globFiles at hf
  rcases List.mem_append.mp hf with h | h
  · exact strEndsWith_ne_empty _ _ (by decide) (List.mem_filter.mp h).2
  · exact strEndsWith_ne_empty _ _ (by decide) (List.mem_filter.mp h).2

theorem buildFileIndex_ne_empty (tree : List SrcFile) (x : String)
    (hx : x ∈ buildFileIndex tree) : x ≠ "" := by
  rcases (mem_buildFileIndex tree x).mp hx with ⟨f, hf, hv⟩
  have hp : f.path ≠ "" := globFiles_path_ne_empty tree f hf
  unfold fourVariants at hv
  simp only [List.mem_cons, List.mem_singleton, List.not_mem_nil, or_false] at hv
  rcases hv with rfl | rfl | rfl | rfl
  · exact hp
  · exact withSuffixEmpty_ne_empty _ hp
  · exact slash_append_ne_empty _
  · exact slash_append_ne_empty _

/-! ### Facts about validation, broken records and the fuzzy matcher -/

theorem validate_valid_iff (idx : List String) (link : Link) :
    (validate_internal_link idx link).valid = true ↔
      ∃ p ∈ possible_paths (normalize_internal_path link.url), p ∈ idx := by
  unfold validate_internal_link
  cases hf : (possible_paths (normalize_internal_path link.url)).find?
      (fun p => decide (p ∈ idx)) with
  | none =>
    have hall := List.find?_eq_none.mp hf
    simp only [hf]
    constructor
    · intro h
      simp at h
    · rintro ⟨p, hp, hmem⟩
      exact absurd (decide_eq_true hmem) (hall p hp)
  | some p =>
    have hp1 : p ∈ possible_paths (normalize_internal_path link.url) :=
      List.mem_of_find?_eq_some hf
    have hp2 := List.find?_some hf
    rw [decide_eq_true_iff] at hp2
    simp only [hf]
    exact ⟨fun _ => ⟨p, hp1, hp2⟩, fun _ => trivial⟩

theorem validate_not_valid {idx : List String} {link : Link}
    (h : (validate_internal_link idx link).valid = false) :
    validate_internal_link idx link =
      { valid := false, target := normalize_internal_path link.url,
        suggestion := find_closest_match idx (normalize_internal_path link.url) } := by
  unfold validate_internal_link at h ⊢
  cases hf : (possible_paths (normalize_internal_path link.url)).find?
      (fun p => decide (p ∈ idx)) with
  | none => simp [hf]
  | some p => simp [hf] at h

theorem mkBrokenRecord_some {idx : List String} {l : Link} {b : BrokenLink}
    (h : mkBrokenRecord idx l = some b) :
    is_internal_link l.url = true ∧ (validate_internal_link idx l).valid = false ∧
      b = { link := l, validation := validate_internal_link idx l,
            confidence :=
              if pyTruthy (validate_internal_link idx l).suggestion then "high" else "low" } := by
  unfold mkBrokenRecord at h
  by_cases hi : is_internal_link l.url
  · simp only [hi, if_true] at h
    by_cases hv : (validate_internal_link idx l).valid
    · simp [hv] at h
    · simp only [Bool.not_eq_true] at hv
      simp only [hv, Bool.false_eq_true, if_false, Option.some.injEq] at h
      exact ⟨hi, hv, h.symm⟩
  · simp [hi] at h

theorem mkBrokenRecord_internal {idx : List String} {l : Link} {b : BrokenLink}
    (h : mkBrokenRecord idx l = some b) : is_internal_link l.url = true :=
  (mkBrokenRecord_some h).1

theorem mem_brokenOf {idx : List String} {links : List Link} {b : BrokenLink}
    (hb : b ∈ brokenOf idx links) :
    b.link ∈ links ∧ is_internal_link b.link.url = true ∧
      b.validation = validate_internal_link idx b.link ∧
      b.validation.valid = false ∧
      b.confidence = if pyTruthy b.validation.suggestion then "high" else "low" := by
  unfold brokenOf at hb
  obtain ⟨a, ha, hfa⟩ := List.mem_filterMap.mp hb
  obtain ⟨hi, hv, rfl⟩ := mkBrokenRecord_some hfa
  exact ⟨ha, hi, rfl, hv, rfl⟩

theorem foldl_closeStep_none (w : String) (poss : List String)
    (h : ∀ x ∈ poss, passesCutoff x w = false) :
    poss.foldl (closeStep w) none = none := by
  induction poss with
  | nil => rfl
  | cons x ps ih =>
    rw [List.foldl_cons]
    have hx : closeStep w none x = none := by
      unfold closeStep
      simp [h x (by simp)]
    rw [hx]
    exact ih fun y hy => h y (by simp [hy])

theorem bestCloseMatch_none (w : String) (poss : List String)
    (h : ∀ x ∈ poss, passesCutoff x w = false) :
    bestCloseMatch w poss = none := by
  unfold bestCloseMatch
  rw [foldl_closeStep_none w poss h]
  rfl

theorem find_closest_match_none (idx : List String) (t : String)
    (h : ∀ f ∈ idx, passesCutoff (strLower f) (strLower t) = false) :
    find_closest_match idx t = none := by
  unfold find_closest_match
  rw [bestCloseMatch_none]
  intro x hx
  obtain ⟨f, hf, rfl⟩ := List.mem_map.mp hx
  exact h f hf

theorem find_closest_match_mem {idx : List String} {t s : String}
    (h : find_closest_match idx t = some s) : s ∈ idx := by
  unfold find_closest_match at h
  cases hb : bestCloseMatch (strLower t) (idx.map strLower) with
  | none => rw [hb] at h; exact absurd h (by simp)
  | some best => rw [hb] at h; exact List.mem_of_find?_eq_some h

/-! ### Counting lemmas -/

theorem length_filter_add_externalOf (L : List Link) :
    (L.filter (fun l => is_internal_link l.url)).length + (externalOf L).length = L.length := by
  induction L with
  | nil => rfl
  | cons l L ih =>
    unfold externalOf at *
    by_cases h : is_internal_link l.url <;> simp [List.filter_cons, h] <;> omega

theorem brokenOf_length_le (idx : List String) (L : List Link) :
    (brokenOf idx L).length ≤ (L.filter (fun l => is_internal_link l.url)).length := by
  induction L with
  | nil => exact Nat.le_refl 0
  | cons l L ih =>
    unfold brokenOf at *
    rw [List.filterMap_cons]
    cases hm : mkBrokenRecord idx l with
    | none =>
      by_cases h : is_internal_link l.url <;> simp [List.filter_cons, h] <;> omega
    | some b =>
      have hi := mkBrokenRecord_internal hm
      simp only [List.filter_cons, hi, if_true, List.length_cons]
      omega

theorem dotSlash_not_dotDot (u : String) (h : strStartsWith u "./" = true) :
    strStartsWith u "../" = false := by
  unfold strStartsWith at *
  rw [decide_eq_true_iff] at h
  apply decide_eq_false
  intro h3
  have h' : u.data.take 2 = ['.', '/'] := h
  have h3' : u.data.take 3 = ['.', '.', '/'] := h3
  cases hu : u.data with
  | nil => rw [hu] at h'; simp at h'
  | cons a t1 =>
    cases t1 with
    | nil => rw [hu] at h'; simp at h'
    | cons b t =>
      rw [hu] at h' h3'
      simp [List.take_succ_cons] at h' h3'
      obtain ⟨-, hb⟩ := h'
      obtain ⟨-, hb2, -⟩ := h3'
      rw [hb] at hb2
      exact absurd hb2 (by decide)

/-! ### Claim theorems -/

/-- C1: an internal link is declared valid iff at least one of the five
candidate strings built from its normalized URL (the normalized path; with
all leading `/` removed; with a leading `/` forced on; with `.mdx`
appended; with `.md` appended) is a member of the FileIndex, and the
FileIndex holds, for every globbed `.md`/`.mdx` file, exactly the four
variants: relative path, relative path without extension, and both
prefixed with `/`. -/
theorem C1_valid_iff_candidate_in_index (tree : List SrcFile) (link : Link) :
    ((validate_internal_link (buildFileIndex tree) link).valid = true ↔
      normalize_internal_path link.url ∈ buildFileIndex tree ∨
      lstripSlash (normalize_internal_path link.url) ∈ buildFileIndex tree ∨
      ("/" ++ lstripSlash (normalize_internal_path link.url)) ∈ buildFileIndex tree ∨
      (normalize_internal_path link.url ++ ".mdx") ∈ buildFileIndex tree ∨
      (normalize_internal_path link.url ++ ".md") ∈ buildFileIndex tree) ∧
    (∀ s, s ∈ buildFileIndex tree ↔
      ∃ f ∈ globFiles tree,
        s = f.path ∨ s = withSuffixEmpty f.path ∨
        s = "/" ++ f.path ∨ s = "/" ++ withSuffixEmpty f.path) := by
  constructor
  · rw [validate_valid_iff]
    simp [possible_paths]
  · intro s
    rw [mem_buildFileIndex]
    simp [fourVariants]

/-- C2: normalization strips from the first `#` then from the first `?`;
a leading `./` is dropped; a path starting with `../` is returned
unchanged with no extension appended; otherwise `.mdx` is appended unless
the path already ends in one of `.mdx .md .json .png .jpg .gif .svg`.
Stated as equality with `normalizeSpec`, transcribed from those words. -/
theorem C2_normalize_matches_spec (url : String) :
    normalize_internal_path url = normalizeSpec url := by
  unfold normalize_internal_path normalizeSpec
  by_cases h1 : strStartsWith (beforeChar (beforeChar url '#') '?') "./" = true
  · have h2 := dotSlash_not_dotDot _ h1
    simp [h1, h2]
  · by_cases h3 : strStartsWith (beforeChar (beforeChar url '#') '?') "../" = true
    · simp [h1, h3]
    · simp [h1, h3]

/-- C3: a link is external iff its URL starts with one of the five scheme
prefixes; every extracted link lands in `links_found` (none dropped); the
external list is exactly the non-internal links in order; and every broken
record comes from an internal link, carrying the result of the internal
validator (which therefore never ran on an external link). -/
theorem C3_classification_partition (tree : List SrcFile) :
    (∀ url : String, is_internal_link url = false ↔
      (strStartsWith url "http://" || strStartsWith url "https://" ||
        strStartsWith url "mailto:" || strStartsWith url "tel:" ||
        strStartsWith url "ftp:") = true) ∧
    (runValidatorState tree).links_found = extractedOf tree ∧
    (runValidatorState tree).external_links =
      (runValidatorState tree).links_found.filter (fun l => !is_internal_link l.url) ∧
    (∀ b ∈ (runValidatorState tree).broken_links,
      is_internal_link b.link.url = true ∧
      b.validation = validate_internal_link (runValidatorState tree).all_files b.link) := by
  refine ⟨?_, ?_, ?_, ?_⟩
  · intro url
    unfold is_internal_link
    cases hA : strStartsWith url "http://" <;>
      cases hB : strStartsWith url "https://" <;>
        cases hC : strStartsWith url "mailto:" <;>
          cases hD : strStartsWith url "tel:" <;>
            cases hE : strStartsWith url "ftp:" <;> simp
  · rw [runValidatorState_eq]
  · rw [runValidatorState_eq]
    rfl
  · intro b hb
    rw [runValidatorState_eq] at hb ⊢
    have h := mem_brokenOf hb
    exact ⟨h.2.1, h.2.2.1⟩

set_option maxRecDepth 100000 in
/-- Witness for C3: in the `tree9` scenario the single broken record indeed
stems from an internal link and carries the validator's result. -/
theorem C3_classification_witness :
    is_internal_link
      (⟨⟨"a.mdx", 1, "href", "", "HTTP://example.com", "HREF='HTTP://example.com'"⟩,
        ⟨false, "HTTP://example.com.mdx", none⟩, "low"⟩ : BrokenLink).link.url = true :=
  ((C3_classification_partition tree9).2.2.2
      ⟨⟨"a.mdx", 1, "href", "", "HTTP://example.com", "HREF='HTTP://example.com'"⟩,
        ⟨false, "HTTP://example.com.mdx", none⟩, "low"⟩ (by decide)).1

/-- C7: the fixes-applied list is empty at construction, after processing,
and in the report, and the reported fixes-applied count is zero. -/
theorem C7_fixes_always_empty (tree : List SrcFile) :
    (initValidator tree).fixes_applied = [] ∧
    (runValidatorState tree).fixes_applied = [] ∧
    (runPipeline tree).fixes_applied = [] ∧
    (runPipeline tree).summary.fixes_applied = 0 := by
  refine ⟨rfl, ?_, ?_, ?_⟩
  · rw [runValidatorState_eq]
  · unfold runPipeline generate_report
    rw [runValidatorState_eq]
  · unfold runPipeline generate_report
    rw [runValidatorState_eq]
    rfl

/-- C10: in every report summary, internal plus external links equal the
total links found, and the broken-internal count never exceeds the
internal count. -/
theorem C10_summary_counts (tree : List SrcFile) :
    (runPipeline tree).summary.internal_links + (runPipeline tree).summary.external_links =
      (runPipeline tree).summary.total_links_found ∧
    (runPipeline tree).summary.broken_internal_links ≤
      (runPipeline tree).summary.internal_links := by
  unfold runPipeline generate_report
  rw [runValidatorState_eq]
  exact ⟨length_filter_add_externalOf (extractedOf tree),
    brokenOf_length_le (buildFileIndex tree) (extractedOf tree)⟩

set_option maxRecDepth 100000 in
/-- C4 counterexample: in the `/guide/intor` typo scenario the broken-link
record's suggestion is `/guide/intro.mdx`, not `/guide/intro` as claimed
(the `.mdx` variant scores 30/32 against the target, beating `/guide/intro`
at 22/28, and `get_close_matches` returns the highest-ratio entry). -/
theorem C4_counterexample :
    c4Suggestions = [some "/guide/intro.mdx"] ∧
    (some "/guide/intro.mdx" : Option String) ≠ some "/guide/intro" := by
  constructor
  · decide
  · decide

set_option maxRecDepth 100000 in
/-- C4 (amended): with the index built from a root containing
`guide/intro.mdx` and a scanned file containing `[bad](/guide/intor)`,
normalization yields `/guide/intor.mdx`, the five-candidate lookup fails,
the fuzzy match clears the 0.6 cutoff, and the broken-link record has
suggestion `/guide/intro.mdx` and confidence `high`. -/
theorem C4_amended_scenario :
    (runValidatorState tree4).broken_links =
      [{ link := { file := "other.mdx", line := 1, type := "markdown", text := "bad",
                   url := "/guide/intor", raw_match := "[bad](/guide/intor)" },
         validation := { valid := false, target := "/guide/intor.mdx",
                         suggestion := some "/guide/intro.mdx" },
         confidence := "high" }] ∧
    passesCutoff (strLower "/guide/intro.mdx") (strLower "/guide/intor.mdx") = true := by
  constructor
  · decide
  · decide

/-- C5: a broken-link record whose normalized target clears the 0.6 cutoff
against no index entry (case-insensitively) carries no suggestion and
confidence `low`; conversely, any record with a suggestion has confidence
`high`. -/
theorem C5_suggestion_confidence (tree : List SrcFile) (b : BrokenLink)
    (hb : b ∈ (runValidatorState tree).broken_links) :
    ((∀ f ∈ (runValidatorState tree).all_files,
        passesCutoff (strLower f) (strLower b.validation.target) = false) →
      b.validation.suggestion = none ∧ b.confidence = "low") ∧
    (∀ s, b.validation.suggestion = some s → b.confidence = "high") := by
  rw [runValidatorState_eq] at hb
  have hb2 : b ∈ brokenOf (buildFileIndex tree) (extractedOf tree) := hb
  obtain ⟨hmem, hint, hveq, hvfalse, hconf⟩ := mem_brokenOf hb2
  rw [hveq] at hvfalse
  have hv2 := validate_not_valid hvfalse
  have hsug : b.validation.suggestion =
      find_closest_match (buildFileIndex tree) (normalize_internal_path b.link.url) := by
    rw [hveq, hv2]
  have htgt : b.validation.target = normalize_internal_path b.link.url := by
    rw [hveq, hv2]
  constructor
  · intro hall
    rw [runValidatorState_eq] at hall
    have hall' : ∀ fi ∈ buildFileIndex tree,
        passesCutoff (strLower fi) (strLower (normalize_internal_path b.link.url)) = false := by
      intro fi hfi
      have h := hall fi hfi
      rw [htgt] at h
      exact h
    have hnone := find_closest_match_none _ _ hall'
    refine ⟨hsug.trans hnone, ?_⟩
    rw [hconf, hsug, hnone]
    rfl
  · intro s hs
    have hs' : find_closest_match (buildFileIndex tree)
        (normalize_internal_path b.link.url) = some s := by
      rw [← hsug]
      exact hs
    have hsne : s ≠ "" :=
      buildFileIndex_ne_empty tree s (find_closest_match_mem hs')
    rw [hconf, hs]
    simp [pyTruthy, hsne]

set_option maxRecDepth 100000 in
/-- Witness for C5: in the `tree5` scenario the target `zzzzzz.mdx` is far
from every index entry, and its broken-link record indeed carries no
suggestion and confidence `low`. -/
theorem C5_suggestion_confidence_witness :
    (⟨⟨"a.mdx", 1, "markdown", "x", "zzzzzz", "[x](zzzzzz)"⟩,
      ⟨false, "zzzzzz.mdx", none⟩, "low"⟩ : BrokenLink).validation.suggestion = none ∧
    (⟨⟨"a.mdx", 1, "markdown", "x", "zzzzzz", "[x](zzzzzz)"⟩,
      ⟨false, "zzzzzz.mdx", none⟩, "low"⟩ : BrokenLink).confidence = "low" :=
  (C5_suggestion_confidence tree5
      ⟨⟨"a.mdx", 1, "markdown", "x", "zzzzzz", "[x](zzzzzz)"⟩,
        ⟨false, "zzzzzz.mdx", none⟩, "low"⟩ (by decide)).1 (by decide)

/-- C6: a file whose content cannot be read contributes zero links, its
processing step is the identity on the validator state, and scanning a
glob list containing it equals scanning the list without it — the failure
stays local and the report-producing run still goes through. -/
theorem C6_read_failure_local (f : SrcFile) (hf : f.content = none) :
    extract_links_from_file f = [] ∧
    (∀ v : LinkValidator, processFile v f = v) ∧
    (∀ (v : LinkValidator) (gs1 gs2 : List SrcFile),
      (gs1 ++ f :: gs2).foldl processFile v = (gs1 ++ gs2).foldl processFile v) ∧
    (∀ (tree gs1 gs2 : List SrcFile) (v : LinkValidator),
      generate_report tree ((gs1 ++ f :: gs2).foldl processFile v) =
        generate_report tree ((gs1 ++ gs2).foldl processFile v)) := by
  have h1 : extract_links_from_file f = [] := by
    unfold extract_links_from_file
    rw [hf]
  have h2 : ∀ v : LinkValidator, processFile v f = v := by
    intro v
    unfold processFile
    rw [h1]
    rfl
  have h3 : ∀ (v : LinkValidator) (gs1 gs2 : List SrcFile),
      (gs1 ++ f :: gs2).foldl processFile v = (gs1 ++ gs2).foldl processFile v := by
    intro v gs1 gs2
    rw [List.foldl_append, List.foldl_append, List.foldl_cons, h2]
  exact ⟨h1, h2, h3, fun tree gs1 gs2 v => by rw [h3]⟩

/-- Witness for C6: an unreadable `bad.mdx` yields no links and leaves the
validator state unchanged. -/
theorem C6_read_failure_witness :
    extract_links_from_file ⟨"bad.mdx", none⟩ = [] ∧
    processFile (initValidator []) ⟨"bad.mdx", none⟩ = initValidator [] :=
  ⟨(C6_read_failure_local ⟨"bad.mdx", none⟩ rfl).1,
    (C6_read_failure_local ⟨"bad.mdx", none⟩ rfl).2.1 (initValidator [])⟩

set_option maxRecDepth 400000 in
/-- C8: the code evaluated at the failing input.  `c8Order1` and
`c8Order2` enumerate the same FileIndex set of `treeC8` (the insertion
order, and an order a different string-hash seed can produce), yet the two
runs' reports differ: `find_closest_match` restores the suggestion's
casing by scanning `all_files` in set-iteration order, and the colliding
paths `A.md`/`a.md` make that scan return `A.md` under one order and
`a.md` under the other.  Two separate-process runs over the unchanged
tree therefore need not produce identical reports. -/
theorem C8_set_order_divergence :
    c8Order1 = buildFileIndex treeC8 ∧
    (∀ x ∈ c8Order1, x ∈ c8Order2) ∧ (∀ x ∈ c8Order2, x ∈ c8Order1) ∧
    (runWithIndex c8Order1 treeC8).broken_links.map (fun b => b.validation.suggestion) =
      [some "A.md"] ∧
    (runWithIndex c8Order2 treeC8).broken_links.map (fun b => b.validation.suggestion) =
      [some "a.md"] ∧
    runWithIndex c8Order1 treeC8 ≠ runWithIndex c8Order2 treeC8 := by
  refine ⟨by decide, by decide, by decide, by decide, by decide, by decide⟩

set_option maxRecDepth 100000 in
/-- C9: `is_internal_link` checks its scheme prefixes case-sensitively
while extraction matches `HREF=` case-insensitively, so a link written
`HREF='HTTP://example.com'` is extracted, classified internal, and handed
to the internal-link validator (which normalizes it to
`HTTP://example.com.mdx` and records it broken). -/
theorem C9_scheme_case_sensitivity :
    is_internal_link "HTTP://example.com" = true ∧
    is_internal_link "http://example.com" = false ∧
    (runValidatorState tree9).links_found =
      [{ file := "a.mdx", line := 1, type := "href", text := "",
         url := "HTTP://example.com", raw_match := "HREF='HTTP://example.com'" }] ∧
    (runValidatorState tree9).external_links = [] ∧
    (runValidatorState tree9).broken_links.map (fun b => (b.link.url, b.validation.target)) =
      [("HTTP://example.com", "HTTP://example.com.mdx")] := by
  refine ⟨by decide, by decide, by decide, by decide, by decide⟩

end LinkVal
